import Mathlib

/-!
Verification of the core of nf/vanity: the go-import TXT record parser
(`parseImport`), and the host resolution cache (`Server.match` / `Server.lookup`
in vanity.go), modelled shallowly. Strings are lists of unicode scalar values,
time is a natural number, and the DNS exchange is an injected result value.
-/

set_option autoImplicit false

namespace Vanity

/-- Go `unicode.IsSpace`: the Unicode White_Space code points.
Used by `strings.Fields` to split on runs of white space. -/
def goIsSpace (c : Char) : Bool :=
  (0x9 ≤ c.toNat && c.toNat ≤ 0xd) || c.toNat == 0x20 || c.toNat == 0x85 ||
  c.toNat == 0xa0 || c.toNat == 0x1680 ||
  (0x2000 ≤ c.toNat && c.toNat ≤ 0x200a) ||
  c.toNat == 0x2028 || c.toNat == 0x2029 || c.toNat == 0x202f ||
  c.toNat == 0x205f || c.toNat == 0x3000

/-- Helper for `fields`: `acc` holds the (reversed) characters of the token
currently being scanned. -/
def fieldsAux : List Char → List Char → List (List Char)
  | acc, [] => if acc.isEmpty then [] else [acc.reverse]
  | acc, c :: cs =>
    if goIsSpace c then
      if acc.isEmpty then fieldsAux [] cs
      else acc.reverse :: fieldsAux [] cs
    else fieldsAux (c :: acc) cs

/-- Go `strings.Fields`: split the string around each run of one or more
white space characters; the result contains no empty tokens. -/
def fields (s : List Char) : List (List Char) := fieldsAux [] s

/-- The `Import` struct of vanity.go. The Go field `Prefix` is renamed `pre`
because `Prefix` collides with reserved syntax here; `VCS` and `URL` are
lowercased. -/
structure Import where
  pre : List Char
  vcs : List Char
  url : List Char
deriving DecidableEq, Repr

/-- The literal `"go-import "` (with single trailing space) that a directive
must start with: the constant `p` of `parseImport`. -/
def goImportPfx : List Char := "go-import ".toList

/-- `parseImport` of vanity.go (identical in gimpy.go): if `s` has the
`"go-import "` literal as a prefix and the rest splits into exactly three
fields, return the directive; otherwise return none. -/
def parseImport (s : List Char) : Option Import :=
  if goImportPfx.isPrefixOf s then
    match fields (s.drop goImportPfx.length) with
    | [a, b, c] => some ⟨a, b, c⟩
    | _ => none
  else none

/-- A DNS answer record as `lookup` sees it: either a TXT record carrying a
list of text strings, or a record of any other type (`dns.TXT` type assertion
fails). -/
inductive RR where
  | txt : List (List Char) → RR
  | other : RR
deriving DecidableEq

/-- The text strings of an answer record: `t.Txt` for a TXT record, nothing
for records of other types. -/
def RR.texts : RR → List (List Char)
  | RR.txt ts => ts
  | RR.other => []

/-- The record-collection loop of `Server.lookup` (vanity.go lines 183-193):
skip non-TXT answers, run `parseImport` on each text string of each TXT
record in order, and keep the successful parses in order. -/
def collectImports : List RR → List Import
  | [] => []
  | RR.other :: rest => collectImports rest
  | RR.txt ts :: rest => ts.filterMap parseImport ++ collectImports rest

/-- The `Host` struct of vanity.go: resolved import directives plus an
absolute expiry instant. -/
structure Host where
  imports : List Import
  expiry : Nat
deriving DecidableEq, Repr

/-- The `map[string]*Host` cache, modelled as an association list with at most
one binding per key (`mapInsert` maintains this). -/
abbrev HostMap := List (String × Host)

/-- Go map read `s.hosts[host]`: the binding for `k`, if any. -/
def mapFind (k : String) : HostMap → Option Host
  | [] => none
  | (k₁, h) :: rest => if k₁ = k then some h else mapFind k rest

/-- Go map assignment `s.hosts[name] = h`: bind `k` to `h`, dropping any
prior binding for `k`. -/
def mapInsert (k : String) (h : Host) (m : HostMap) : HostMap :=
  (k, h) :: m.filter (fun q => q.1 != k)

/-- The `Server` struct of vanity.go, restricted to the parts the cache
claims mention: the configured refresh period (TTL) and the host map. The
resolver address and DNS client are abstracted into the injected exchange
result. -/
structure Server where
  refresh : Nat
  hosts : HostMap
deriving DecidableEq

/-- `NewServer`: a fresh server with the given refresh period and an empty
host map. -/
def NewServer (refresh : Nat) : Server := ⟨refresh, []⟩

/-- `Server.match` (vanity.go lines 166-173): return the cached entry for
`host` when one exists and its expiry is strictly after the current time,
otherwise nothing. (Named `matchHost` because `match` is reserved here.) -/
def matchHost (s : Server) (now : Nat) (host : String) : Option Host :=
  match mapFind host s.hosts with
  | some h => if now < h.expiry then some h else none
  | none => none

/-- The two typed failures of `Server.lookup`: a DNS transport or resolver
error, or a successful exchange with no valid go-import records. -/
inductive LookupErr where
  | dnsError
  | notFound
deriving DecidableEq, Repr

/-- `Server.lookup` (vanity.go lines 175-201). The DNS exchange for the
queried name is injected as `dns`: an error, or the answer records of a
successful response. On success the collected imports, when non-empty, are
stored under `name` with expiry `now + refresh` and returned; on any failure
the state is returned unchanged with a typed error. -/
def lookup (s : Server) (now : Nat) (name : String) (dns : Except Unit (List RR)) :
    Server × Except LookupErr Host :=
  match dns with
  | .error _ => (s, .error .dnsError)
  | .ok answer =>
    let h : Host := { imports := collectImports answer, expiry := now + s.refresh }
    if h.imports.isEmpty then (s, .error .notFound)
    else ({ s with hosts := mapInsert name h s.hosts }, .ok h)

/-- The resolution step of `Server.ServeHTTP` (vanity.go lines 147-156):
try the fast path `matchHost`; on a miss run `lookup`. The boolean records
whether a DNS query was issued (the slow path was taken). -/
def resolve (s : Server) (now : Nat) (host : String) (dns : Except Unit (List RR)) :
    Server × Except LookupErr Host × Bool :=
  match matchHost s now host with
  | some h => (s, .ok h, false)
  | none =>
    let r := lookup s now host dns
    (r.1, r.2, true)

/-- Index of the first occurrence of `c` in `s`, if any
(Go `bytealg.IndexByteString`). -/
def idxOf (c : Char) : List Char → Option Nat
  | [] => none
  | x :: xs => if x = c then some 0 else (idxOf c xs).map (· + 1)

/-- Index of the last occurrence of `c` in `s`, if any (Go `last`). -/
def lastIdxOf (c : Char) : List Char → Option Nat
  | [] => none
  | x :: xs =>
    match lastIdxOf c xs with
    | some i => some (i + 1)
    | none => if x = c then some 0 else none

/-- Go `net.SplitHostPort`, the dependency of `ServeHTTP` lines 139-142:
split `hostPort` into host and port around the last colon, handling a
bracketed (IPv6) host; every error return of the Go function is `none` here
(the caller only tests `err != nil`). -/
def goSplitHostPort (hostPort : List Char) : Option (List Char × List Char) :=
  match lastIdxOf ':' hostPort with
  | none => none
  | some i =>
    if hostPort.headD ' ' = '[' then
      match idxOf ']' hostPort with
      | none => none
      | some e =>
        if e + 1 = hostPort.length then none
        else if e + 1 = i then
          if (idxOf '[' (hostPort.drop 1)).isSome then none
          else if (idxOf ']' (hostPort.drop (e + 1))).isSome then none
          else some ((hostPort.take e).drop 1, hostPort.drop (i + 1))
        else none
    else
      if (idxOf ':' (hostPort.take i)).isSome then none
      else if (idxOf '[' hostPort).isSome then none
      else if (idxOf ']' hostPort).isSome then none
      else some (hostPort.take i, hostPort.drop (i + 1))

/-- The hostname extraction of `Server.ServeHTTP` (vanity.go lines 139-142):
split the request Host value into host and port; if the split fails, use the
whole Host value unchanged. -/
def extractHost (hostHeader : List Char) : List Char :=
  match goSplitHostPort hostHeader with
  | some hp => hp.1
  | none => hostHeader

/-- Cache invariant: every stored entry has a non-empty import list. -/
def cacheInv (s : Server) : Prop :=
  ∀ name h, mapFind name s.hosts = some h → h.imports ≠ []

/-! ### Helper lemmas -/

theorem fieldsAux_ne_nil (s : List Char) :
    ∀ acc t, t ∈ fieldsAux acc s → t ≠ [] := by
  induction s with
  | nil =>
    intro acc t ht
    simp only [fieldsAux] at ht
    split at ht
    · simp at ht
    · rename_i hne
      rw [List.mem_singleton] at ht
      subst ht
      simp only [List.isEmpty_iff] at hne
      simpa using hne
  | cons c cs ih =>
    intro acc t ht
    simp only [fieldsAux] at ht
    split at ht
    · split at ht
      · exact ih [] t ht
      · rename_i hne
        rcases List.mem_cons.mp ht with h | h
        · subst h
          simp only [List.isEmpty_iff] at hne
          simpa using hne
        · exact ih [] t h
    · exact ih (c :: acc) t ht

theorem fields_ne_nil {s t : List Char} (ht : t ∈ fields s) : t ≠ [] :=
  fieldsAux_ne_nil s [] t ht

theorem mapFind_filter_ne (k k' : String) (m : HostMap) (hk : k ≠ k') :
    mapFind k' (m.filter (fun q => q.1 != k)) = mapFind k' m := by
  induction m with
  | nil => rfl
  | cons q rest ih =>
    obtain ⟨k₁, h₁⟩ := q
    rw [List.filter_cons]
    by_cases hq : k₁ = k
    · subst hq
      simp only [bne_self_eq_false, Bool.false_eq_true, if_false]
      rw [ih]
      simp [mapFind, hk]
    · simp only [show ((k₁, h₁).1 != k) = true by simpa using hq, if_true]
      simp [mapFind, ih]

theorem mapFind_mapInsert (k k' : String) (h : Host) (m : HostMap) :
    mapFind k' (mapInsert k h m) = if k = k' then some h else mapFind k' m := by
  by_cases hk : k = k'
  · subst hk; simp [mapInsert, mapFind]
  · simp [mapInsert, mapFind, hk, mapFind_filter_ne k k' m hk]

theorem matchHost_eq_some (s : Server) (now : Nat) (host : String) (h : Host) :
    matchHost s now host = some h ↔
      mapFind host s.hosts = some h ∧ now < h.expiry := by
  simp only [matchHost]
  cases hf : mapFind host s.hosts with
  | none => simp
  | some h₀ =>
    by_cases hlt : now < h₀.expiry
    · simp only [if_pos hlt]
      constructor
      · intro he
        cases he
        exact ⟨rfl, hlt⟩
      · rintro ⟨he, _⟩
        cases he
        rfl
    · simp only [if_neg hlt]
      constructor
      · intro he; cases he
      · rintro ⟨he, hlt2⟩
        cases he
        exact absurd hlt2 hlt

theorem matchHost_none_mono (s : Server) (now now' : Nat) (host : String)
    (hm : matchHost s now host = none) (hle : now ≤ now') :
    matchHost s now' host = none := by
  simp only [matchHost] at hm ⊢
  cases hf : mapFind host s.hosts with
  | none => rfl
  | some h₀ =>
    rw [hf] at hm
    simp only at hm
    by_cases hlt : now < h₀.expiry
    · rw [if_pos hlt] at hm; cases hm
    · show (if now' < h₀.expiry then some h₀ else none) = none
      rw [if_neg (by omega : ¬ now' < h₀.expiry)]

theorem lookup_ok_iff (s : Server) (now : Nat) (name : String)
    (dns : Except Unit (List RR)) (s' : Server) (h : Host) :
    lookup s now name dns = (s', .ok h) ↔
      ∃ ans, dns = .ok ans ∧ collectImports ans ≠ [] ∧
        h = ⟨collectImports ans, now + s.refresh⟩ ∧
        s' = { s with hosts := mapInsert name h s.hosts } := by
  cases dns with
  | error e =>
    cases e
    simp only [lookup]
    constructor
    · intro he
      exact absurd (congrArg Prod.snd he) (by simp)
    · rintro ⟨ans, hans, -⟩
      cases hans
  | ok ans =>
    simp only [lookup]
    by_cases he : (collectImports ans).isEmpty
    · rw [if_pos he]
      rw [List.isEmpty_iff] at he
      constructor
      · intro hc
        exact absurd (congrArg Prod.snd hc) (by simp)
      · rintro ⟨ans', hans', hne, -⟩
        cases hans'
        exact absurd he hne
    · rw [if_neg he]
      rw [List.isEmpty_iff] at he
      constructor
      · intro hc
        have h1 := congrArg Prod.fst hc
        have h2 := congrArg Prod.snd hc
        simp only at h1 h2
        cases h2
        exact ⟨ans, rfl, he, rfl, h1.symm⟩
      · rintro ⟨ans', hans', -, hh, hs⟩
        cases hans'
        cases hh
        cases hs
        rfl

theorem collectImports_eq_flatMap (ans : List RR) :
    collectImports ans = (ans.flatMap RR.texts).filterMap parseImport := by
  induction ans with
  | nil => rfl
  | cons a rest ih =>
    cases a with
    | other => simpa [collectImports, RR.texts] using ih
    | txt ts => simp [collectImports, RR.texts, ih]

theorem cacheInv_lookup (s : Server) (now : Nat) (host : String)
    (dns : Except Unit (List RR)) (hs : cacheInv s) :
    cacheInv (lookup s now host dns).1 := by
  cases dns with
  | error e => exact hs
  | ok ans =>
    simp only [lookup]
    by_cases he : (collectImports ans).isEmpty
    · rw [if_pos he]; exact hs
    · rw [if_neg he]
      rw [List.isEmpty_iff] at he
      intro name h hf
      simp only at hf
      rw [mapFind_mapInsert] at hf
      split at hf
      · cases hf; exact he
      · exact hs name h hf

/-! ### Claim theorems -/

/-- C1: `parseImport s` returns a directive iff `s` starts with the exact
literal "go-import " (single trailing space) and the remainder splits on runs
of white space into exactly three (necessarily non-empty) tokens; the
directive's fields are those three tokens in order, and in every other case
the result is `none` (the return type admits no error). -/
theorem parseImport_spec (s : List Char) (i : Import) :
    parseImport s = some i ↔
      ∃ rest a b c, goImportPfx ++ rest = s ∧ fields rest = [a, b, c] ∧
        a ≠ [] ∧ b ≠ [] ∧ c ≠ [] ∧ i = ⟨a, b, c⟩ := by
  constructor
  · intro hp
    simp only [parseImport] at hp
    split at hp
    · rename_i hpre
      obtain ⟨rest, hrest⟩ := List.isPrefixOf_iff_prefix.mp hpre
      rw [← hrest, List.drop_left] at hp
      split at hp
      · rename_i a b c hf
        cases hp
        refine ⟨rest, a, b, c, hrest, hf, ?_, ?_, ?_, rfl⟩
        · exact fields_ne_nil (show a ∈ fields rest by rw [hf]; simp)
        · exact fields_ne_nil (show b ∈ fields rest by rw [hf]; simp)
        · exact fields_ne_nil (show c ∈ fields rest by rw [hf]; simp)
      · cases hp
    · cases hp
  · rintro ⟨rest, a, b, c, rfl, hf, -, -, -, rfl⟩
    simp only [parseImport]
    rw [if_pos (List.isPrefixOf_iff_prefix.mpr ⟨rest, rfl⟩), List.drop_left, hf]

/-- Witness for C1: the iff evaluated at a concrete well-formed record. -/
theorem parseImport_spec_witness :
    ∃ rest a b c,
      goImportPfx ++ rest = "go-import a git u".toList ∧
      fields rest = [a, b, c] ∧ a ≠ [] ∧ b ≠ [] ∧ c ≠ [] ∧
      (⟨"a".toList, "git".toList, "u".toList⟩ : Import) = ⟨a, b, c⟩ :=
  (parseImport_spec ("go-import a git u".toList)
    ⟨"a".toList, "git".toList, "u".toList⟩).mp (by decide)

/-- C2: a cached entry whose expiry is strictly after the current time is
returned by the fast path with no DNS query and no state change; and after a
successful slow-path resolve at time `now` (which stores expiry
`now + refresh`), every resolve of the same host at any `now' < now + refresh`
returns the same stored entry and issues no DNS query. -/
theorem resolve_cache_freshness (s : Server) (now : Nat) (host : String)
    (dns : Except Unit (List RR)) :
    (∀ h, mapFind host s.hosts = some h → now < h.expiry →
      resolve s now host dns = (s, .ok h, false)) ∧
    (∀ s' h, matchHost s now host = none →
      resolve s now host dns = (s', .ok h, true) →
      h.expiry = now + s.refresh ∧
      ∀ now' dns', now' < now + s.refresh →
        resolve s' now' host dns' = (s', .ok h, false)) := by
  constructor
  · intro h hf hlt
    have hm : matchHost s now host = some h :=
      (matchHost_eq_some s now host h).mpr ⟨hf, hlt⟩
    simp [resolve, hm]
  · intro s' h hm hr
    simp only [resolve, hm] at hr
    have h1 : (lookup s now host dns).1 = s' := congrArg Prod.fst hr
    have h2 : (lookup s now host dns).2 = .ok h := congrArg (fun p => p.2.1) hr
    have hl : lookup s now host dns = (s', .ok h) := by rw [← h1, ← h2]
    obtain ⟨ans, hans, hne, hh, hs⟩ := (lookup_ok_iff s now host dns s' h).mp hl
    have hexp : h.expiry = now + s.refresh := by rw [hh]
    refine ⟨hexp, ?_⟩
    intro now' dns' hlt
    have hfind : mapFind host s'.hosts = some h := by
      rw [hs]
      show mapFind host (mapInsert host h s.hosts) = some h
      rw [mapFind_mapInsert, if_pos rfl]
    have hm' : matchHost s' now' host = some h :=
      (matchHost_eq_some s' now' host h).mpr ⟨hfind, by omega⟩
    simp [resolve, hm']

/-- Witness for C2: the fast path serves a fresh stored entry unchanged, and
after a concrete successful slow-path resolve at time 0 with TTL 10, a
resolve at time 5 serves the stored entry with no DNS query. -/
theorem resolve_cache_freshness_witness :
    resolve ⟨10, [("h", ⟨[⟨['a'], ['g'], ['u']⟩], 7⟩)]⟩ 3 "h" (.error ()) =
      (⟨10, [("h", ⟨[⟨['a'], ['g'], ['u']⟩], 7⟩)]⟩,
        .ok ⟨[⟨['a'], ['g'], ['u']⟩], 7⟩, false) ∧
    resolve ⟨10, [("h", ⟨[⟨['a'], ['g', 'i', 't'], ['u']⟩], 10⟩)]⟩ 5 "h"
        (.error ()) =
      (⟨10, [("h", ⟨[⟨['a'], ['g', 'i', 't'], ['u']⟩], 10⟩)]⟩,
        .ok ⟨[⟨['a'], ['g', 'i', 't'], ['u']⟩], 10⟩, false) :=
  ⟨(resolve_cache_freshness ⟨10, [("h", ⟨[⟨['a'], ['g'], ['u']⟩], 7⟩)]⟩ 3 "h"
        (.error ())).1 ⟨[⟨['a'], ['g'], ['u']⟩], 7⟩ (by decide) (by decide),
    ((resolve_cache_freshness (NewServer 10) 0 "h"
          (.ok [RR.txt ["go-import a git u".toList]])).2
        ⟨10, [("h", ⟨[⟨['a'], ['g', 'i', 't'], ['u']⟩], 10⟩)]⟩
        ⟨[⟨['a'], ['g', 'i', 't'], ['u']⟩], 10⟩ (by decide) rfl).2
      5 (.error ()) (by decide)⟩

/-- C3: every failed lookup (DNS error, or success with zero valid
directives) returns the corresponding typed error with the host map
completely unchanged, so a following resolve of the same hostname at the same
or a later time takes the slow path and issues a new DNS query. -/
theorem lookup_failure_no_caching (s : Server) (now now' : Nat) (name : String)
    (dns dns' : Except Unit (List RR)) :
    (∀ e, (lookup s now name dns).2 = .error e → (lookup s now name dns).1 = s) ∧
    (dns = .error () → lookup s now name dns = (s, .error .dnsError)) ∧
    (∀ ans, dns = .ok ans → collectImports ans = [] →
      lookup s now name dns = (s, .error .notFound)) ∧
    (matchHost s now name = none → now ≤ now' →
      (resolve s now' name dns').2.2 = true) := by
  refine ⟨?_, ?_, ?_, ?_⟩
  · intro e he
    cases dns with
    | error u => rfl
    | ok ans =>
      simp only [lookup] at he ⊢
      by_cases hne : (collectImports ans).isEmpty
      · rw [if_pos hne]
      · rw [if_neg hne] at he
        simp at he
  · rintro rfl
    rfl
  · rintro ans rfl hempty
    simp [lookup, hempty]
  · intro hm hle
    have hm' := matchHost_none_mono s now now' name hm hle
    simp [resolve, hm']

/-- Witness for C3: a TXT-free answer yields `notFound` with the new server
unchanged, and the immediately following resolve takes the slow path. -/
theorem lookup_failure_no_caching_witness :
    lookup (NewServer 10) 0 "h" (.ok [RR.other]) =
      (NewServer 10, .error .notFound) ∧
    (resolve (NewServer 10) 5 "h" (.error ())).2.2 = true :=
  ⟨(lookup_failure_no_caching (NewServer 10) 0 5 "h" (.ok [RR.other])
        (.error ())).2.2.1 [RR.other] rfl rfl,
    (lookup_failure_no_caching (NewServer 10) 0 5 "h" (.ok [RR.other])
        (.error ())).2.2.2 (by decide) (by omega)⟩

/-- C4: a successful lookup stores under the queried hostname an entry whose
expiry is the resolution time plus the server's configured refresh period,
overwriting any prior binding for that hostname, keeps the refresh period,
and returns that entry. -/
theorem lookup_success_stores_ttl (s : Server) (now : Nat) (name : String)
    (dns : Except Unit (List RR)) (s' : Server) (h : Host)
    (hl : lookup s now name dns = (s', .ok h)) :
    h.expiry = now + s.refresh ∧ mapFind name s'.hosts = some h ∧
    s'.refresh = s.refresh := by
  obtain ⟨ans, hans, hne, hh, hs⟩ := (lookup_ok_iff s now name dns s' h).mp hl
  refine ⟨by rw [hh], ?_, by rw [hs]⟩
  rw [hs]
  show mapFind name (mapInsert name h s.hosts) = some h
  rw [mapFind_mapInsert, if_pos rfl]

/-- Witness for C4: a concrete lookup at time 3 with TTL 10 overwrites a
prior entry with one that expires at 13 and is found in the map. -/
theorem lookup_success_stores_ttl_witness :
    (⟨[⟨['a'], ['g', 'i', 't'], ['u']⟩], 13⟩ : Host).expiry = 3 + 10 ∧
    mapFind "h" (⟨10, [("h", ⟨[⟨['a'], ['g', 'i', 't'], ['u']⟩], 13⟩)]⟩ :
        Server).hosts =
      some ⟨[⟨['a'], ['g', 'i', 't'], ['u']⟩], 13⟩ ∧
    (⟨10, [("h", ⟨[⟨['a'], ['g', 'i', 't'], ['u']⟩], 13⟩)]⟩ : Server).refresh =
      (⟨10, [("h", ⟨[⟨['b'], ['g'], ['u']⟩], 2⟩)]⟩ : Server).refresh :=
  lookup_success_stores_ttl ⟨10, [("h", ⟨[⟨['b'], ['g'], ['u']⟩], 2⟩)]⟩ 3 "h"
    (.ok [RR.txt ["go-import a git u".toList]])
    ⟨10, [("h", ⟨[⟨['a'], ['g', 'i', 't'], ['u']⟩], 13⟩)]⟩
    ⟨[⟨['a'], ['g', 'i', 't'], ['u']⟩], 13⟩ rfl

/-- C5: on a successful exchange the stored imports are exactly the
order-preserving successful parses of the text strings of the TXT answer
records (non-TXT answers skipped), and the two-record example yields the two
directives in answer order. -/
theorem lookup_collects_in_order (s : Server) (now : Nat) (name : String)
    (ans : List RR) (s' : Server) (h : Host) :
    (lookup s now name (.ok ans) = (s', .ok h) →
      h.imports = collectImports ans) ∧
    collectImports ans = (ans.flatMap RR.texts).filterMap parseImport ∧
    collectImports [RR.txt ["go-import a git urlA".toList],
        RR.txt ["go-import b hg urlB".toList]] =
      [⟨"a".toList, "git".toList, "urlA".toList⟩,
        ⟨"b".toList, "hg".toList, "urlB".toList⟩] := by
  refine ⟨?_, collectImports_eq_flatMap ans, by decide⟩
  intro hl
  obtain ⟨ans', hans', -, hh, -⟩ :=
    (lookup_ok_iff s now name (.ok ans) s' h).mp hl
  cases hans'
  rw [hh]

/-- Witness for C5: the imports of the entry produced by a concrete lookup
over the two-record answer are exactly the collected parses. -/
theorem lookup_collects_in_order_witness :
    (⟨[⟨"a".toList, "git".toList, "urlA".toList⟩,
        ⟨"b".toList, "hg".toList, "urlB".toList⟩], 10⟩ : Host).imports =
      collectImports [RR.txt ["go-import a git urlA".toList],
        RR.txt ["go-import b hg urlB".toList]] :=
  (lookup_collects_in_order (NewServer 10) 0 "h"
      [RR.txt ["go-import a git urlA".toList],
        RR.txt ["go-import b hg urlB".toList]]
      ⟨10, [("h", ⟨[⟨"a".toList, "git".toList, "urlA".toList⟩,
        ⟨"b".toList, "hg".toList, "urlB".toList⟩], 10⟩)]⟩
      ⟨[⟨"a".toList, "git".toList, "urlA".toList⟩,
        ⟨"b".toList, "hg".toList, "urlB".toList⟩], 10⟩).1 rfl

/-- C6: the no-empty-entry cache invariant holds for a new server and is
preserved by `lookup` and by `resolve` (the fast path never modifies the
state), so no reachable state stores an entry with zero directives. -/
theorem cacheInv_reachable (s : Server) (d now : Nat) (host : String)
    (dns : Except Unit (List RR)) :
    cacheInv (NewServer d) ∧
    (cacheInv s → cacheInv (lookup s now host dns).1) ∧
    (cacheInv s → cacheInv (resolve s now host dns).1) := by
  refine ⟨?_, cacheInv_lookup s now host dns, ?_⟩
  · intro name h hf
    simp [NewServer, mapFind] at hf
  · intro hs
    simp only [resolve]
    cases hm : matchHost s now host with
    | some h => exact hs
    | none => exact cacheInv_lookup s now host dns hs

/-- Witness for C6: the state after a concrete successful lookup from the
empty cache satisfies the invariant. -/
theorem cacheInv_reachable_witness :
    cacheInv (lookup (NewServer 10) 0 "h"
      (.ok [RR.txt ["go-import a git u".toList]])).1 :=
  (cacheInv_reachable (NewServer 10) 10 0 "h"
      (.ok [RR.txt ["go-import a git u".toList]])).2.1
    (by intro name h hf; simp [NewServer, mapFind] at hf)

/-- C7: a successful lookup for `name` changes the map only at `name`: every
other hostname keeps its previous binding, the queried hostname maps to the
returned entry, and that entry is a freshly constructed record built from
this DNS exchange alone (not a mutation of any prior entry). -/
theorem lookup_frame (s : Server) (now : Nat) (name other : String)
    (dns : Except Unit (List RR)) (s' : Server) (h : Host)
    (hl : lookup s now name dns = (s', .ok h)) :
    (other ≠ name → mapFind other s'.hosts = mapFind other s.hosts) ∧
    mapFind name s'.hosts = some h ∧
    (∃ ans, dns = .ok ans ∧ h = ⟨collectImports ans, now + s.refresh⟩) := by
  obtain ⟨ans, hans, hne, hh, hs⟩ := (lookup_ok_iff s now name dns s' h).mp hl
  refine ⟨?_, ?_, ans, hans, hh⟩
  · intro hother
    rw [hs]
    show mapFind other (mapInsert name h s.hosts) = mapFind other s.hosts
    rw [mapFind_mapInsert, if_neg (fun he => hother he.symm)]
  · rw [hs]
    show mapFind name (mapInsert name h s.hosts) = some h
    rw [mapFind_mapInsert, if_pos rfl]

/-- Witness for C7: a concrete lookup for "h" leaves the binding of the
unrelated hostname "g" untouched. -/
theorem lookup_frame_witness :
    mapFind "g" (⟨10, [("h", ⟨[⟨['a'], ['g', 'i', 't'], ['u']⟩], 13⟩),
        ("g", ⟨[⟨['b'], ['g'], ['u']⟩], 9⟩)]⟩ : Server).hosts =
      mapFind "g" (⟨10, [("g", ⟨[⟨['b'], ['g'], ['u']⟩], 9⟩)]⟩ : Server).hosts :=
  (lookup_frame ⟨10, [("g", ⟨[⟨['b'], ['g'], ['u']⟩], 9⟩)]⟩ 3 "h" "g"
      (.ok [RR.txt ["go-import a git u".toList]])
      ⟨10, [("h", ⟨[⟨['a'], ['g', 'i', 't'], ['u']⟩], 13⟩),
        ("g", ⟨[⟨['b'], ['g'], ['u']⟩], 9⟩)]⟩
      ⟨[⟨['a'], ['g', 'i', 't'], ['u']⟩], 13⟩ rfl).1 (by decide)

/-- C8: the core is total: whenever the literal-prefix test succeeds the slice
past it is in bounds; `parseImport` always returns a directive or `none`; and
`lookup` always returns exactly one of its three outcomes — success with the
updated map, a `dnsError`, or a `notFound` — never anything else. -/
theorem core_no_panic (t : List Char) (s : Server) (now : Nat) (name : String)
    (dns : Except Unit (List RR)) :
    (goImportPfx.isPrefixOf t = true → goImportPfx.length ≤ t.length) ∧
    ((∃ i, parseImport t = some i) ∨ parseImport t = none) ∧
    ((∃ h, lookup s now name dns =
        ({ s with hosts := mapInsert name h s.hosts }, .ok h)) ∨
      lookup s now name dns = (s, .error .dnsError) ∨
      lookup s now name dns = (s, .error .notFound)) := by
  refine ⟨?_, ?_, ?_⟩
  · intro hpre
    exact (List.isPrefixOf_iff_prefix.mp hpre).length_le
  · cases hp : parseImport t with
    | some i => exact Or.inl ⟨i, rfl⟩
    | none => exact Or.inr rfl
  · cases dns with
    | error u => cases u; exact Or.inr (Or.inl rfl)
    | ok ans =>
      simp only [lookup]
      by_cases he : (collectImports ans).isEmpty
      · rw [if_pos he]
        exact Or.inr (Or.inr rfl)
      · rw [if_neg he]
        exact Or.inl ⟨_, rfl⟩

/-- Witness for C8: the slice bound at a concrete string passing the
literal-prefix test. -/
theorem core_no_panic_witness :
    goImportPfx.length ≤ ("go-import a git u".toList).length :=
  (core_no_panic ("go-import a git u".toList) (NewServer 10) 0 "h"
      (.error ())).1 (by decide)

/-- C10: the hostname handed to the cache comes from splitting the request
Host value into host and port; when the split fails the whole Host value is
used unchanged, so a Host with no port (like "example.org") resolves under
its full name, while "example.org:80" resolves under "example.org". -/
theorem extractHost_spec (hh h p : List Char) :
    (goSplitHostPort hh = none → extractHost hh = hh) ∧
    (goSplitHostPort hh = some (h, p) → extractHost hh = h) ∧
    goSplitHostPort ("example.org".toList) = none ∧
    extractHost ("example.org".toList) = "example.org".toList ∧
    extractHost ("example.org:80".toList) = "example.org".toList := by
  refine ⟨?_, ?_, by decide, by decide, by decide⟩
  · intro hs
    simp [extractHost, hs]
  · intro hs
    simp [extractHost, hs]

/-- Witness for C10: the port is stripped from a concrete Host value with a
port. -/
theorem extractHost_spec_witness :
    extractHost ("example.org:80".toList) = "example.org".toList :=
  (extractHost_spec ("example.org:80".toList) ("example.org".toList)
      ("80".toList)).2.1 (by decide)

end Vanity
